import Mathlib

/-!
Shallow embedding of the basharal/filesystem repository: the in-memory
filesystem engine (package fs), the shard server (package server) and the
shard client's routing (package client).

Conventions of the embedding:

* Go strings are embedded as lists of characters (`Str`); the paths the
  system handles are ASCII, so character comparison coincides with Go's
  byte comparison.
* The path index (the external dependency github.com/basharal/trie, not
  part of this repository and assumed correct by the design document) is
  modelled from the spec as an association list from full path keys to
  node payloads.  `FindAtNode(p, n)` / `AddAtNode(p, n, v)` resolve the
  relative path `p` against the node `n` by concatenating `n`'s key with
  `p`, exactly as the fs package uses them; node identity is key identity
  (keys are unique in every state the engine builds).
* Locks are dropped: every operation is embedded as a pure function on
  the whole filesystem state, following the sequential control flow of
  the Go source line by line.  A Go method mutates its receiver only
  after all error returns, so an `Except.error` result models an
  unchanged state.
* Byte streams (io.Reader / io.Writer) are embedded as the full list of
  bytes transferred until end of input.
-/

abbrev Str := List Char

def sepChar : Char := '/'

/-- Node payload: the fs package stores either a `*File` (with its content
bytes) or a `*Dir` as the meta value of a trie node. -/
inductive NodeData where
  | file (content : List UInt8)
  | dir
  deriving DecidableEq

/-- The path index: association list from full path keys to node payloads. -/
abbrev Trie := List (Str × NodeData)

/-- Point lookup of a full key, first match (keys are unique in reachable
states). Models trie.FindAtNode with the key already resolved. -/
def lookupKey : Trie → Str → Option NodeData
  | [], _ => none
  | (k, v) :: rest, q => if k = q then some v else lookupKey rest q

/-- Models trie.Remove: the entry at the given key disappears. -/
def removeKey : Trie → Str → Trie
  | [], _ => []
  | e :: rest, k => if e.1 = k then removeKey rest k else e :: removeKey rest k

/-- Replaces the payload stored at a key (used to model in-place mutation of
a file's content: the trie node itself is untouched in Go). -/
def updateKey : Trie → Str → NodeData → Trie
  | [], _, _ => []
  | e :: rest, k, v => (if e.1 = k then (k, v) else e) :: updateKey rest k v

/-- Typed errors of package fs. `typeMismatch` stands for the untyped
fmt.Errorf values (write/read on a directory, cd into a file). -/
inductive Err where
  | alreadyExist
  | notFound
  | invalidName
  | notSupported
  | dirNotEmpty
  | typeMismatch
  deriving DecidableEq

/-- FileSystem state: the trie plus the current-directory cursor (stored as
the directory's trie key, e.g. "/" or "/bar/").  The root key is always
"/". -/
structure FS where
  trie : Trie
  currentDir : Str
  deriving DecidableEq

/-- Go: s != "" && s[0] == Separator. -/
def isAbs (s : Str) : Bool :=
  match s with
  | c :: _ => decide (c = sepChar)
  | [] => false

/-- Go: strings.HasSuffix(s, "/"). -/
def hasSepSuffix (s : Str) : Bool :=
  match s.reverse with
  | c :: _ => decide (c = sepChar)
  | [] => false

/-- Go fs.normalizeDirPath: directories always end with a separator. -/
def normalizeDirPath (s : Str) : Str :=
  if hasSepSuffix s then s else s ++ [sepChar]

/-- Go Metadata.AbsolutePath for a directory key: the trailing separator is
trimmed except for the root. -/
def dirAbsolutePath (k : Str) : Str :=
  if decide (1 < k.length) && hasSepSuffix k then k.dropLast else k

/-- Go fs.normalizePath: absolute paths unchanged, relative ones prefixed
with the current directory's absolute path by plain concatenation. -/
def FS.normalizePath (fs : FS) (p : Str) : Str :=
  if isAbs p then p else dirAbsolutePath fs.currentDir ++ p

/-- Resolution done by fs.findNode: start at the trie root for an absolute
path, at the current directory's node otherwise, then walk the given path;
with keys as full strings that is concatenation. -/
def FS.resolve (fs : FS) (p : Str) : Str :=
  if isAbs p then p else fs.currentDir ++ p

/-- Go fs.findNode: returns the trie node (identified here by its key)
together with its payload. -/
def FS.findNode (fs : FS) (p : Str) : Option (Str × NodeData) :=
  match lookupKey fs.trie (fs.resolve p) with
  | some v => some (fs.resolve p, v)
  | none => none

/-- Go strings.Split(s, "/"). -/
def goSplit : Str → List Str
  | [] => [[]]
  | c :: rest =>
    if c = sepChar then [] :: goSplit rest
    else
      match goSplit rest with
      | s :: ss => (c :: s) :: ss
      | [] => [[c]]

/-- Go fs.validateName: no "." or ".." segment (true = valid). -/
def validateName (s : Str) : Bool :=
  (goSplit s).all (fun seg => decide (seg ≠ ['.'] ∧ seg ≠ ['.', '.']))

/-- True when seg is one further path segment: a file name (no separator)
or a directory name followed by the separator.  Used to model the
immediate-children enumeration of trie.ListAtNode, per the spec of the
path index. -/
def childSeg (seg : Str) : Bool :=
  match goSplit seg with
  | [n] => decide (n ≠ [])
  | [n, m] => decide (n ≠ [] ∧ m = [])
  | _ => false

def startsWithKey : Str → Str → Bool
  | [], _ => true
  | _ :: _, [] => false
  | a :: as, b :: bs => decide (a = b) && startsWithKey as bs

/-- child is a key exactly one segment below parent. -/
def isChildKey (parent child : Str) : Bool :=
  startsWithKey parent child && childSeg (child.drop parent.length)

/-- Immediate children of the node at key k.  Modelled from the spec: the
path index supports prefix-bounded listing of the immediate children of a
directory (trie.ListAtNode; the trie itself is outside this repository). -/
def childPairs : Trie → Str → Trie
  | [], _ => []
  | e :: rest, k => if isChildKey k e.1 then e :: childPairs rest k else childPairs rest k

def filesOf : Trie → Trie
  | [] => []
  | e :: rest =>
    match e.2 with
    | NodeData.file _ => e :: filesOf rest
    | NodeData.dir => filesOf rest

def dirsOf : Trie → Trie
  | [] => []
  | e :: rest =>
    match e.2 with
    | NodeData.file _ => dirsOf rest
    | NodeData.dir => e :: dirsOf rest

/-- Go FileSystem.ListDir: normalize to directory form, find the node,
list its immediate children split into files and directories (returned
here as key/payload pairs). -/
def FS.listDir (fs : FS) (p : Str) : Except Err (Trie × Trie) :=
  let s := normalizeDirPath p
  match fs.findNode s with
  | none => Except.error Err.notFound
  | some (k, _) =>
    let kids := childPairs fs.trie k
    Except.ok (filesOf kids, dirsOf kids)

/-- Resolution step of Go FileSystem.Remove: look the path up as given,
and if that fails try again with the directory suffix appended.  Returns
the path form that succeeded together with the node. -/
def FS.removeFind (fs : FS) (s1 : Str) : Option (Str × (Str × NodeData)) :=
  match fs.findNode s1 with
  | some n => some (s1, n)
  | none =>
    match fs.findNode (normalizeDirPath s1) with
    | some n => some (normalizeDirPath s1, n)
    | none => none

/-- Go FileSystem.Remove.  The root / current-directory test compares node
identity, i.e. keys ("/" is the root's key).  A file is removed
unconditionally; a directory only when ListDir reports no children. -/
def FS.removeOp (fs : FS) (p : Str) : Except Err FS :=
  let s1 := fs.normalizePath p
  match fs.removeFind s1 with
  | none => Except.error Err.notFound
  | some (s, (k, v)) =>
    if k = [sepChar] ∨ k = fs.currentDir then Except.error Err.notSupported
    else
      match v with
      | NodeData.file _ => Except.ok { fs with trie := removeKey fs.trie s }
      | NodeData.dir =>
        match fs.listDir s with
        | Except.error e => Except.error e
        | Except.ok (fls, drs) =>
          if fls ≠ [] ∨ drs ≠ [] then Except.error Err.dirNotEmpty
          else Except.ok { fs with trie := removeKey fs.trie s }

/-- Go FileSystem.mkdirAtNode: path must be a single separator-suffixed
segment, free of reserved names, and neither the directory nor the file
form of the name may already exist under the parent node. -/
def FS.mkdirAtNode (fs : FS) (path : Str) (nodeKey : Str) : Except Err FS :=
  if path = [] ∨ hasSepSuffix path = false then Except.error Err.invalidName
  else if validateName path = false then Except.error Err.invalidName
  else if (goSplit path).length ≠ 2 then Except.error Err.notSupported
  else if (lookupKey fs.trie (nodeKey ++ path)).isSome then Except.error Err.alreadyExist
  else if (lookupKey fs.trie (nodeKey ++ path.dropLast)).isSome then Except.error Err.alreadyExist
  else Except.ok { fs with trie := (nodeKey ++ path, NodeData.dir) :: fs.trie }

/-- Go FileSystem.MakeDir. -/
def FS.makeDir (fs : FS) (p : Str) : Except Err FS :=
  let s := normalizeDirPath p
  if isAbs s then fs.mkdirAtNode (s.drop 1) [sepChar]
  else fs.mkdirAtNode s fs.currentDir

/-- Go FileSystem.newFileAtNode: mirrors mkdirAtNode for a single file
segment (no trailing separator), checking both name forms. -/
def FS.newFileAtNode (fs : FS) (path : Str) (nodeKey : Str) : Except Err FS :=
  if path = [] ∨ hasSepSuffix path = true then Except.error Err.invalidName
  else if validateName path = false then Except.error Err.invalidName
  else if (goSplit path).length ≠ 1 then Except.error Err.notSupported
  else if (lookupKey fs.trie (nodeKey ++ path)).isSome then Except.error Err.alreadyExist
  else if (lookupKey fs.trie (nodeKey ++ path ++ [sepChar])).isSome then Except.error Err.alreadyExist
  else Except.ok { fs with trie := (nodeKey ++ path, NodeData.file []) :: fs.trie }

/-- Go FileSystem.NewFile (no normalization step). -/
def FS.newFile (fs : FS) (p : Str) : Except Err FS :=
  if isAbs p then fs.newFileAtNode (p.drop 1) [sepChar]
  else fs.newFileAtNode p fs.currentDir

/-- Go FileSystem.Write → File.Write: resolve the node, then the file's
content becomes the old content followed by the streamed bytes
(bytes.NewBuffer(f.content); io.Copy(buf, reader); f.content = buf.Bytes()).
Returns (bytes written, error, new state); on error the count is -1 and the
state is returned unchanged. -/
def FS.write (fs : FS) (p : Str) (data : List UInt8) : Int × Option Err × FS :=
  match fs.findNode p with
  | none => (-1, some Err.notFound, fs)
  | some (_, NodeData.dir) => (-1, some Err.typeMismatch, fs)
  | some (k, NodeData.file c) =>
    ((data.length : Int), none,
      { fs with trie := updateKey fs.trie k (NodeData.file (c ++ data)) })

/-- Go FileSystem.Read → File.Read: resolve the node, stream the whole
content to the sink.  Returns (bytes read, error, bytes delivered to the
sink); the state is never mutated. -/
def FS.read (fs : FS) (p : Str) : Int × Option Err × List UInt8 :=
  match fs.findNode p with
  | none => (-1, some Err.notFound, [])
  | some (_, NodeData.dir) => (-1, some Err.typeMismatch, [])
  | some (_, NodeData.file c) => ((c.length : Int), none, c)

/-- Go FileSystem.Move: validate both names, resolve src and dst as given
(relative resolution through the current directory's node), refuse a
missing src and an occupied dst, then relocate the payload from the
normalized src key to the normalized dst key. -/
def FS.move (fs : FS) (src dst : Str) : Except Err FS :=
  if validateName src = false then Except.error Err.invalidName
  else if validateName dst = false then Except.error Err.invalidName
  else
    let absSrc := fs.normalizePath src
    let absDst := fs.normalizePath dst
    match fs.findNode src with
    | none => Except.error Err.notFound
    | some (_, v) =>
      match fs.findNode dst with
      | some _ => Except.error Err.alreadyExist
      | none => Except.ok { fs with trie := (absDst, v) :: removeKey fs.trie absSrc }

/-- Go FileSystem.ChangeDir. -/
def FS.changeDir (fs : FS) (p : Str) : Except Err FS :=
  let s := normalizeDirPath p
  match fs.findNode s with
  | none => Except.error Err.notFound
  | some (_, NodeData.file _) => Except.error Err.typeMismatch
  | some (k, NodeData.dir) => Except.ok { fs with currentDir := k }

/-- Go fs.New: one root directory at key "/", which is also the current
directory. -/
def FS.init : FS :=
  { trie := [([sepChar], NodeData.dir)], currentDir := [sepChar] }

/-- Runs one Except-producing step, keeping the old state on error
(Go methods mutate the receiver only on success). -/
def stepOk (e : Except Err FS) (fallback : FS) : FS :=
  match e with
  | Except.ok f => f
  | Except.error _ => fallback

/-- Shard server state (package server): its one-character range
[start, stop) and the namespace engine it wraps.  Go stores the bounds as
single-character strings and always indexes their first byte, embedded
here directly as characters ("end" is a Lean keyword, hence "stop"). -/
structure Server where
  start : Char
  stop : Char
  fs : FS
  deriving DecidableEq

/-- Go Server.validatePath (true = path accepted): non-empty, absolute,
and when anything follows the leading separator its first character must
lie in [start, stop). -/
def validatePath (start stop : Char) (p : Str) : Bool :=
  if p = [] then false
  else if isAbs p = false then false
  else
    match p with
    | _ :: c :: _ => !(decide (c < start) || decide (stop ≤ c))
    | _ => true

/-- Errors visible on the wire: the invalid-argument rejection issued by
validatePath, engine errors passed through unchanged, and the WriteFile
complaint about a first message that carries no path. -/
inductive RpcErr where
  | invalidArgument
  | engine (e : Err)
  | badFirstMsg
  deriving DecidableEq

/-- Successful responses: a listing (file keys, dir keys), a SUCCESS
status, or streamed file content. -/
inductive RpcOut where
  | listing (files dirs : List Str)
  | status
  | chunk (data : List UInt8)
  deriving DecidableEq

/-- Go Server.ListDir. -/
def Server.listDirH (sv : Server) (p : Str) : Except RpcErr RpcOut × Server :=
  if validatePath sv.start sv.stop p = false then (Except.error RpcErr.invalidArgument, sv)
  else
    match sv.fs.listDir p with
    | Except.error e => (Except.error (RpcErr.engine e), sv)
    | Except.ok (fls, drs) =>
      (Except.ok (RpcOut.listing (fls.map Prod.fst) (drs.map Prod.fst)), sv)

/-- Go Server.MakeDir. -/
def Server.makeDirH (sv : Server) (p : Str) : Except RpcErr RpcOut × Server :=
  if validatePath sv.start sv.stop p = false then (Except.error RpcErr.invalidArgument, sv)
  else
    match sv.fs.makeDir p with
    | Except.error e => (Except.error (RpcErr.engine e), sv)
    | Except.ok fs2 => (Except.ok RpcOut.status, { sv with fs := fs2 })

/-- Go Server.Remove. -/
def Server.removeH (sv : Server) (p : Str) : Except RpcErr RpcOut × Server :=
  if validatePath sv.start sv.stop p = false then (Except.error RpcErr.invalidArgument, sv)
  else
    match sv.fs.removeOp p with
    | Except.error e => (Except.error (RpcErr.engine e), sv)
    | Except.ok fs2 => (Except.ok RpcOut.status, { sv with fs := fs2 })

/-- Go Server.CreateFile. -/
def Server.createFileH (sv : Server) (p : Str) : Except RpcErr RpcOut × Server :=
  if validatePath sv.start sv.stop p = false then (Except.error RpcErr.invalidArgument, sv)
  else
    match sv.fs.newFile p with
    | Except.error e => (Except.error (RpcErr.engine e), sv)
    | Except.ok fs2 => (Except.ok RpcOut.status, { sv with fs := fs2 })

/-- Go Server.ReadFile (the streamed chunks are collected into one list). -/
def Server.readFileH (sv : Server) (p : Str) : Except RpcErr RpcOut × Server :=
  if validatePath sv.start sv.stop p = false then (Except.error RpcErr.invalidArgument, sv)
  else
    match sv.fs.read p with
    | (_, some e, _) => (Except.error (RpcErr.engine e), sv)
    | (_, none, bs) => (Except.ok (RpcOut.chunk bs), sv)

/-- One message of the client-streamed WriteFile call: either the
destination path (required first) or a chunk of raw bytes. -/
inductive FilePayload where
  | path (p : Str)
  | data (d : List UInt8)
  deriving DecidableEq

/-- Bytes delivered by the server-side streamReader: data chunks in
arrival order; a stray path message contributes GetData() = nil. -/
def payloadData : List FilePayload → List UInt8
  | [] => []
  | FilePayload.data d :: rest => d ++ payloadData rest
  | FilePayload.path _ :: rest => payloadData rest

/-- Go Server.WriteFile.  Note (source, server.go:158-179): unlike the
other five handlers it never calls validatePath; the path from the first
message goes straight to the engine. -/
def Server.writeFileH (sv : Server) (msgs : List FilePayload) : Except RpcErr RpcOut × Server :=
  match msgs with
  | [] => (Except.ok RpcOut.status, sv)
  | first :: rest =>
    match first with
    | FilePayload.data _ => (Except.error RpcErr.badFirstMsg, sv)
    | FilePayload.path p =>
      if p = [] then (Except.error RpcErr.badFirstMsg, sv)
      else
        match sv.fs.write p (payloadData rest) with
        | (_, some e, fs2) => (Except.error (RpcErr.engine e), { sv with fs := fs2 })
        | (_, none, fs2) => (Except.ok RpcOut.status, { sv with fs := fs2 })

/-- The five RPCs whose request message is a bare Path. -/
inductive PathRpc where
  | listdir
  | makedir
  | remove
  | createfile
  | readfile
  deriving DecidableEq

/-- Dispatch to the five path-carrying handlers. -/
def Server.handlePath (sv : Server) (op : PathRpc) (p : Str) : Except RpcErr RpcOut × Server :=
  match op with
  | PathRpc.listdir => sv.listDirH p
  | PathRpc.makedir => sv.makeDirH p
  | PathRpc.remove => sv.removeH p
  | PathRpc.createfile => sv.createFileH p
  | PathRpc.readfile => sv.readFileH p

/-- The 1:1 forwarding of a path RPC to the namespace engine, with the
engine's result translated to the wire response (the body of each handler
after its validatePath guard). -/
def Server.engineForward (sv : Server) (op : PathRpc) (p : Str) : Except RpcErr RpcOut × Server :=
  match op with
  | PathRpc.listdir =>
    match sv.fs.listDir p with
    | Except.error e => (Except.error (RpcErr.engine e), sv)
    | Except.ok (fls, drs) =>
      (Except.ok (RpcOut.listing (fls.map Prod.fst) (drs.map Prod.fst)), sv)
  | PathRpc.makedir =>
    match sv.fs.makeDir p with
    | Except.error e => (Except.error (RpcErr.engine e), sv)
    | Except.ok fs2 => (Except.ok RpcOut.status, { sv with fs := fs2 })
  | PathRpc.remove =>
    match sv.fs.removeOp p with
    | Except.error e => (Except.error (RpcErr.engine e), sv)
    | Except.ok fs2 => (Except.ok RpcOut.status, { sv with fs := fs2 })
  | PathRpc.createfile =>
    match sv.fs.newFile p with
    | Except.error e => (Except.error (RpcErr.engine e), sv)
    | Except.ok fs2 => (Except.ok RpcOut.status, { sv with fs := fs2 })
  | PathRpc.readfile =>
    match sv.fs.read p with
    | (_, some e, _) => (Except.error (RpcErr.engine e), sv)
    | (_, none, bs) => (Except.ok (RpcOut.chunk bs), sv)

/-- One shard-table entry held by the client (package client): the
one-character range bounds and the server address (Go keeps the bounds as
strings and indexes their first byte). -/
structure ShardEntry where
  start : Char
  stop : Char
  addr : Str
  deriving DecidableEq

/-- The range test of Client.clientsForPath for a non-root absolute path:
the first character after the separator lies in [start, stop). -/
def inRange (e : ShardEntry) (p : Str) : Bool :=
  match p with
  | _ :: c :: _ => decide (e.start ≤ c) && decide (c < e.stop)
  | _ => false

/-- Go Client.clientsForPath: iterate the table; every iteration first
rejects a non-absolute path, then includes the entry when the path is the
root or its first character falls in the entry's range.  none models the
returned error; the addresses come back in table order. -/
def clientsForPath : List ShardEntry → Str → Option (List Str)
  | [], _ => some []
  | sv :: rest, p =>
    if isAbs p = false then none
    else
      match clientsForPath rest p with
      | none => none
      | some tail =>
        if p = [sepChar] ∨ inRange sv p = true then some (sv.addr :: tail)
        else some tail

instance {ε α : Type} [DecidableEq ε] [DecidableEq α] : DecidableEq (Except ε α) :=
  fun a b =>
    match a, b with
    | Except.error x, Except.error y =>
      match decEq x y with
      | isTrue h => isTrue (by rw [h])
      | isFalse h => isFalse (fun hc => h (by injection hc))
    | Except.error _, Except.ok _ => isFalse (fun hc => Except.noConfusion hc)
    | Except.ok _, Except.error _ => isFalse (fun hc => Except.noConfusion hc)
    | Except.ok x, Except.ok y =>
      match decEq x y with
      | isTrue h => isTrue (by rw [h])
      | isFalse h => isFalse (fun hc => h (by injection hc))

theorem lookupKey_removeKey_self (t : Trie) (k : Str) :
    lookupKey (removeKey t k) k = none := by
  induction t with
  | nil => rfl
  | cons e rest ih =>
    by_cases h : e.1 = k
    · simp [removeKey, h, ih]
    · simp [removeKey, lookupKey, h, ih]

theorem lookupKey_removeKey_ne (t : Trie) (k q : Str) (h : q ≠ k) :
    lookupKey (removeKey t k) q = lookupKey t q := by
  induction t with
  | nil => rfl
  | cons e rest ih =>
    have hkq : ¬ (k = q) := fun hq => h hq.symm
    by_cases he : e.1 = k
    · simp [removeKey, lookupKey, he, hkq, ih]
    · by_cases hq : e.1 = q <;> simp [removeKey, lookupKey, he, hq, ih, h, hkq]

theorem fst_ne_of_mem_removeKey (t : Trie) (k : Str) (x : Str × NodeData)
    (h : x ∈ removeKey t k) : x.1 ≠ k := by
  induction t with
  | nil => cases h
  | cons e rest ih =>
    by_cases he : e.1 = k
    · exact ih (by simpa [removeKey, he] using h)
    · rcases (by simpa [removeKey, he] using h : x = e ∨ x ∈ removeKey rest k) with hx | hx
      · rw [hx]; exact he
      · exact ih hx

theorem mem_of_mem_childPairs (t : Trie) (k : Str) (x : Str × NodeData)
    (h : x ∈ childPairs t k) : x ∈ t := by
  induction t with
  | nil => cases h
  | cons e rest ih =>
    by_cases he : isChildKey k e.1 = true
    · rcases (by simpa [childPairs, he] using h : x = e ∨ x ∈ childPairs rest k) with hx | hx
      · simp [hx]
      · exact List.mem_cons_of_mem _ (ih hx)
    · exact List.mem_cons_of_mem _ (ih (by simpa [childPairs, he] using h))

theorem mem_of_mem_dirsOf (l : Trie) (x : Str × NodeData)
    (h : x ∈ dirsOf l) : x ∈ l := by
  induction l with
  | nil => cases h
  | cons e rest ih =>
    match he : e.2 with
    | NodeData.file c =>
      refine List.mem_cons_of_mem _ (ih ?_)
      simpa [dirsOf, he] using h
    | NodeData.dir =>
      rcases (by simpa [dirsOf, he] using h : x = e ∨ x ∈ dirsOf rest) with hx | hx
      · simp [hx]
      · exact List.mem_cons_of_mem _ (ih hx)

theorem filesOf_dirsOf_not_both_nil (l : Trie) (h : l ≠ []) :
    filesOf l ≠ [] ∨ dirsOf l ≠ [] := by
  match l with
  | [] => exact absurd rfl h
  | e :: rest =>
    match he : e.2 with
    | NodeData.file c => exact Or.inl (by simp [filesOf, he])
    | NodeData.dir => exact Or.inr (by simp [dirsOf, he])

theorem sep_mem_of_hasSepSuffix (l : Str) (h : hasSepSuffix l = true) : sepChar ∈ l := by
  unfold hasSepSuffix at h
  match hr : l.reverse with
  | [] => rw [hr] at h; cases h
  | c :: cs =>
    rw [hr] at h
    simp only [decide_eq_true_eq] at h
    have : c ∈ l.reverse := by rw [hr]; exact List.mem_cons_self _ _
    rw [List.mem_reverse] at this
    rw [← h]; exact this

theorem hasSepSuffix_of_no_sep (l : Str) (h : sepChar ∉ l) : hasSepSuffix l = false := by
  by_cases hs : hasSepSuffix l = true
  · exact absurd (sep_mem_of_hasSepSuffix l hs) h
  · simpa using hs

theorem hasSepSuffix_concat (l : Str) : hasSepSuffix (l ++ [sepChar]) = true := by
  unfold hasSepSuffix
  rw [List.reverse_append]
  simp

theorem goSplit_no_sep (n : Str) (h : sepChar ∉ n) : goSplit n = [n] := by
  induction n with
  | nil => rfl
  | cons c rest ih =>
    have hc : ¬ (c = sepChar) := fun hc => h (by rw [hc]; exact List.mem_cons_self _ _)
    have hr : sepChar ∉ rest := fun hm => h (List.mem_cons_of_mem _ hm)
    simp [goSplit, hc, ih hr]

theorem goSplit_concat_sep (n : Str) (h : sepChar ∉ n) :
    goSplit (n ++ [sepChar]) = [n, []] := by
  induction n with
  | nil => simp [goSplit, sepChar]
  | cons c rest ih =>
    have hc : ¬ (c = sepChar) := fun hc => h (by rw [hc]; exact List.mem_cons_self _ _)
    have hr : sepChar ∉ rest := fun hm => h (List.mem_cons_of_mem _ hm)
    simp [goSplit, hc, ih hr]

theorem validateName_no_sep (n : Str) (h : sepChar ∉ n) (h3 : n ≠ ['.'])
    (h4 : n ≠ ['.', '.']) : validateName n = true := by
  unfold validateName
  rw [goSplit_no_sep n h]
  simp [h3, h4]

theorem validateName_dir_form (n : Str) (h : sepChar ∉ n) (h3 : n ≠ ['.'])
    (h4 : n ≠ ['.', '.']) : validateName (n ++ [sepChar]) = true := by
  unfold validateName
  rw [goSplit_concat_sep n h]
  simp [h3, h4]

theorem isAbs_of_no_sep (n : Str) (h1 : n ≠ []) (h2 : sepChar ∉ n) : isAbs n = false := by
  match n with
  | [] => exact absurd rfl h1
  | c :: rest =>
    have : ¬ (c = sepChar) := fun hc => h2 (by rw [hc]; exact List.mem_cons_self _ _)
    simp [isAbs, this]

/-- C10: Write and Read on a path that does not resolve to an existing
file node (no node at all, or a directory) return -1 together with an
error, and the state and every file content are unchanged (read never
mutates; write returns the state it was given). -/
theorem write_read_non_file (fs : FS) (p : Str) (data : List UInt8) (k : Str) :
    (fs.findNode p = none →
      fs.write p data = (-1, some Err.notFound, fs) ∧
      fs.read p = (-1, some Err.notFound, [])) ∧
    (fs.findNode p = some (k, NodeData.dir) →
      fs.write p data = (-1, some Err.typeMismatch, fs) ∧
      fs.read p = (-1, some Err.typeMismatch, [])) := by
  constructor
  · intro h
    constructor
    · simp [FS.write, h]
    · simp [FS.read, h]
  · intro h
    constructor
    · simp [FS.write, h]
    · simp [FS.read, h]

/-- Witness for C10: on the initial filesystem, "/x" resolves to nothing
and "/" resolves to the root directory; both write and read fail with -1
and leave the state untouched. -/
theorem write_read_non_file_witness :
    (FS.init.write ['/', 'x'] [1] = (-1, some Err.notFound, FS.init) ∧
     FS.init.read ['/', 'x'] = (-1, some Err.notFound, [])) ∧
    (FS.init.write [sepChar] [1] = (-1, some Err.typeMismatch, FS.init) ∧
     FS.init.read [sepChar] = (-1, some Err.typeMismatch, [])) :=
  ⟨(write_read_non_file FS.init ['/', 'x'] [1] [sepChar]).1 (by decide),
   (write_read_non_file FS.init [sepChar] [1] [sepChar]).2 (by decide)⟩

/-- C1 counterexample: writing does NOT replace the old content.  On a
fresh file "f", writing [1, 2] and then [3, 4] leaves content
[1, 2, 3, 4]: the second write's source bytes [3, 4] are appended after
the old content instead of replacing it, refuting the claim at this
input. -/
theorem write_not_replace_counterexample :
    ((((stepOk (FS.init.newFile ['f']) FS.init).write ['f'] [1, 2]).2.2.write
        ['f'] [3, 4]).2.2.read ['f']).2.2 = [1, 2, 3, 4] ∧
    ([1, 2, 3, 4] : List UInt8) ≠ [3, 4] := by decide

/-- C1 amended: after File.Write(source) via FileSystem.Write, the file's
content equals its OLD content followed by the bytes streamed from the
source (append, not replace), and the returned count is the number of
bytes streamed from the source. -/
theorem write_appends (fs : FS) (p k : Str) (c data : List UInt8)
    (h : fs.findNode p = some (k, NodeData.file c)) :
    fs.write p data = ((data.length : Int), none,
      { fs with trie := updateKey fs.trie k (NodeData.file (c ++ data)) }) := by
  simp [FS.write, h]

/-- Witness for the amended C1: a file "/f" holding [1] receives [2] and
ends up holding [1, 2], with a reported count of 1 byte written. -/
theorem write_appends_witness :
    ({ trie := [(['/', 'f'], NodeData.file [1]), ([sepChar], NodeData.dir)],
       currentDir := [sepChar] } : FS).write ['/', 'f'] [2] =
      ((1 : Int), none,
        { trie := [(['/', 'f'], NodeData.file [1, 2]), ([sepChar], NodeData.dir)],
          currentDir := [sepChar] }) := by
  have h := write_appends
    ({ trie := [(['/', 'f'], NodeData.file [1]), ([sepChar], NodeData.dir)],
       currentDir := [sepChar] } : FS) ['/', 'f'] ['/', 'f'] [1] [2] (by decide)
  simpa using h

/-- C2 counterexample: with directory "/bar/" existing and file "/f"
existing, Move("/f", "/bar") — a file moved onto an existing directory
named in file form — is NOT rejected with AlreadyExists: it succeeds and
creates the file key "/bar" next to the directory key "/bar/". -/
theorem move_onto_dir_counterexample :
    ({ trie := [(['/', 'b', 'a', 'r', '/'], NodeData.dir),
                (['/', 'f'], NodeData.file [1]),
                ([sepChar], NodeData.dir)],
       currentDir := [sepChar] } : FS).move ['/', 'f'] ['/', 'b', 'a', 'r'] =
      Except.ok
        { trie := [(['/', 'b', 'a', 'r'], NodeData.file [1]),
                   (['/', 'b', 'a', 'r', '/'], NodeData.dir),
                   ([sepChar], NodeData.dir)],
          currentDir := [sepChar] } ∧
    ({ trie := [(['/', 'b', 'a', 'r', '/'], NodeData.dir),
                (['/', 'f'], NodeData.file [1]),
                ([sepChar], NodeData.dir)],
       currentDir := [sepChar] } : FS).move ['/', 'f'] ['/', 'b', 'a', 'r'] ≠
      Except.error Err.alreadyExist := by decide

/-- C2 amended: provided neither path contains a reserved "." or ".."
segment and src resolves to an existing node, Move fails with
AlreadyExists whenever dst resolves to an existing node in the exact form
given (a directory is only detected when dst carries its trailing
separator), and in that failing case the namespace is left completely
unchanged. -/
theorem move_occupied_dst (fs : FS) (src dst ks kd : Str) (vs vd : NodeData)
    (h1 : validateName src = true) (h2 : validateName dst = true)
    (h3 : fs.findNode src = some (ks, vs)) (h4 : fs.findNode dst = some (kd, vd)) :
    fs.move src dst = Except.error Err.alreadyExist ∧
    stepOk (fs.move src dst) fs = fs := by
  have hm : fs.move src dst = Except.error Err.alreadyExist := by
    simp [FS.move, h1, h2, h3, h4]
  exact ⟨hm, by rw [hm]; rfl⟩

/-- Witness for the amended C2: moving existing file "/f" onto existing
directory "/bar/" (named in directory form) fails with AlreadyExists and
changes nothing. -/
theorem move_occupied_dst_witness :
    ({ trie := [(['/', 'b', 'a', 'r', '/'], NodeData.dir),
                (['/', 'f'], NodeData.file [1]),
                ([sepChar], NodeData.dir)],
       currentDir := [sepChar] } : FS).move ['/', 'f'] ['/', 'b', 'a', 'r', '/'] =
      Except.error Err.alreadyExist ∧
    stepOk (({ trie := [(['/', 'b', 'a', 'r', '/'], NodeData.dir),
                        (['/', 'f'], NodeData.file [1]),
                        ([sepChar], NodeData.dir)],
               currentDir := [sepChar] } : FS).move ['/', 'f'] ['/', 'b', 'a', 'r', '/'])
      ({ trie := [(['/', 'b', 'a', 'r', '/'], NodeData.dir),
                  (['/', 'f'], NodeData.file [1]),
                  ([sepChar], NodeData.dir)],
         currentDir := [sepChar] } : FS) =
      ({ trie := [(['/', 'b', 'a', 'r', '/'], NodeData.dir),
                  (['/', 'f'], NodeData.file [1]),
                  ([sepChar], NodeData.dir)],
         currentDir := [sepChar] } : FS) :=
  move_occupied_dst _ ['/', 'f'] ['/', 'b', 'a', 'r', '/'] ['/', 'f']
    ['/', 'b', 'a', 'r', '/'] (NodeData.file [1]) NodeData.dir
    (by decide) (by decide) (by decide) (by decide)

/-- C5: when the path Remove resolves (file form first, then directory
form) lands on the root node or on the current directory's node, Remove
fails with NotSupported; in particular, whenever the root directory is
present, Remove("/") fails with NotSupported and the state — root
included — is unchanged. -/
theorem remove_root_or_current (fs : FS) (p s k : Str) (v : NodeData)
    (h1 : fs.removeFind (fs.normalizePath p) = some (s, (k, v)))
    (h2 : k = [sepChar] ∨ k = fs.currentDir) :
    fs.removeOp p = Except.error Err.notSupported ∧
    (lookupKey fs.trie [sepChar] = some NodeData.dir →
      fs.removeOp [sepChar] = Except.error Err.notSupported ∧
      stepOk (fs.removeOp [sepChar]) fs = fs) := by
  constructor
  · simp only [FS.removeOp, h1]
    rw [if_pos h2]
  · intro hroot
    have hm : fs.removeOp [sepChar] = Except.error Err.notSupported := by
      have hfind : fs.findNode [sepChar] = some ([sepChar], NodeData.dir) := by
        simp [FS.findNode, FS.resolve, isAbs, hroot]
      have hnorm : fs.normalizePath [sepChar] = [sepChar] := by
        simp [FS.normalizePath, isAbs]
      simp [FS.removeOp, hnorm, FS.removeFind, hfind]
    exact ⟨hm, by rw [hm]; rfl⟩

/-- Witness for C5: removing "/" on the freshly created filesystem fails
with NotSupported and leaves the state unchanged. -/
theorem remove_root_or_current_witness :
    FS.init.removeOp [sepChar] = Except.error Err.notSupported ∧
    stepOk (FS.init.removeOp [sepChar]) FS.init = FS.init :=
  (remove_root_or_current FS.init [sepChar] [sepChar] [sepChar] NodeData.dir
    (by decide) (Or.inl rfl)).2 (by decide)

theorem isAbs_append_of_no_sep (n m : Str) (h1 : n ≠ []) (h2 : sepChar ∉ n) :
    isAbs (n ++ m) = false := by
  match n with
  | [] => exact absurd rfl h1
  | c :: rest =>
    have : ¬ (c = sepChar) := fun hc => h2 (by rw [hc]; exact List.mem_cons_self _ _)
    simp [isAbs, this]

/-- C6: creation never lets a file and a directory share a name.  For any
current directory (the parent for relative creation) and any valid single
segment n, if either a file named n or a directory named n already exists
under that parent, then MakeDir of the directory form and NewFile of the
file form both fail with AlreadyExists: both operations check both name
forms. -/
theorem create_existing_name (fs : FS) (n : Str)
    (h1 : n ≠ []) (h2 : sepChar ∉ n) (h3 : n ≠ ['.']) (h4 : n ≠ ['.', '.'])
    (h5 : lookupKey fs.trie (fs.currentDir ++ n) ≠ none ∨
          lookupKey fs.trie (fs.currentDir ++ n ++ [sepChar]) ≠ none) :
    fs.makeDir (n ++ [sepChar]) = Except.error Err.alreadyExist ∧
    fs.newFile n = Except.error Err.alreadyExist := by
  have hassoc : fs.currentDir ++ (n ++ [sepChar]) = fs.currentDir ++ n ++ [sepChar] :=
    (List.append_assoc _ _ _).symm
  have hsuf := hasSepSuffix_concat n
  have hvald := validateName_dir_form n h2 h3 h4
  have hvalf := validateName_no_sep n h2 h3 h4
  have hsplitd : goSplit (n ++ [sepChar]) = [n, []] := goSplit_concat_sep n h2
  have hsplitf : goSplit n = [n] := goSplit_no_sep n h2
  constructor
  · have hmk : fs.makeDir (n ++ [sepChar]) = fs.mkdirAtNode (n ++ [sepChar]) fs.currentDir := by
      simp [FS.makeDir, normalizeDirPath, hsuf, isAbs_append_of_no_sep n [sepChar] h1 h2]
    rw [hmk]
    cases hx : lookupKey fs.trie (fs.currentDir ++ (n ++ [sepChar])) with
    | some v => simp [FS.mkdirAtNode, hsuf, hvald, hsplitd, hx, h1]
    | none =>
      have hfile : lookupKey fs.trie (fs.currentDir ++ n) ≠ none := by
        rcases h5 with h5 | h5
        · exact h5
        · rw [hassoc] at hx; exact absurd hx h5
      cases hy : lookupKey fs.trie (fs.currentDir ++ n) with
      | none => exact absurd hy hfile
      | some v =>
        have hdrop : (n ++ [sepChar]).dropLast = n := by simp
        simp [FS.mkdirAtNode, hsuf, hvald, hsplitd, hx, hy, hdrop, h1]
  · have hnf : fs.newFile n = fs.newFileAtNode n fs.currentDir := by
      simp [FS.newFile, isAbs_of_no_sep n h1 h2]
    rw [hnf]
    have hnosuf := hasSepSuffix_of_no_sep n h2
    cases hx : lookupKey fs.trie (fs.currentDir ++ n) with
    | some v => simp [FS.newFileAtNode, hnosuf, hvalf, hsplitf, hx, h1]
    | none =>
      have hdir : lookupKey fs.trie (fs.currentDir ++ n ++ [sepChar]) ≠ none := by
        rcases h5 with h5 | h5
        · exact absurd hx h5
        · exact h5
      cases hy : lookupKey fs.trie (fs.currentDir ++ n ++ [sepChar]) with
      | none => exact absurd hy hdir
      | some v =>
        have hy2 : lookupKey fs.trie (fs.currentDir ++ (n ++ [sepChar])) = some v := by
          rw [hassoc]; exact hy
        simp [FS.newFileAtNode, hnosuf, hvalf, hsplitf, hx, hy2, h1]

/-- Witness for C6: with a file "a" existing directly under the root
(the current directory), both MakeDir("a/") and NewFile("a") fail with
AlreadyExists. -/
theorem create_existing_name_witness :
    ({ trie := [(['/', 'a'], NodeData.file []), ([sepChar], NodeData.dir)],
       currentDir := [sepChar] } : FS).makeDir ['a', '/'] = Except.error Err.alreadyExist ∧
    ({ trie := [(['/', 'a'], NodeData.file []), ([sepChar], NodeData.dir)],
       currentDir := [sepChar] } : FS).newFile ['a'] = Except.error Err.alreadyExist :=
  create_existing_name _ ['a'] (by decide) (by decide) (by decide) (by decide)
    (Or.inl (by decide))

/-- The bytes of the string "foobar". -/
def foobarBytes : List UInt8 := [102, 111, 111, 98, 97, 114]

/-- C4: on a fresh path p (absolute "/n" or relative "n", a single valid
segment with no node of either name form at the parent K — the root for
absolute paths, the current directory otherwise), CreateFile(p), then
Write(p, "foobar"), then Read(p) streams exactly the bytes "foobar" to
the read sink, with both byte counts equal to 6. -/
theorem create_write_read_round_trip (fs : FS) (p n K : Str)
    (hd : (isAbs p = true ∧ p = sepChar :: n ∧ K = [sepChar]) ∨
          (isAbs p = false ∧ p = n ∧ K = fs.currentDir))
    (h1 : n ≠ []) (h2 : sepChar ∉ n) (h3 : n ≠ ['.']) (h4 : n ≠ ['.', '.'])
    (h5 : lookupKey fs.trie (K ++ n) = none)
    (h6 : lookupKey fs.trie (K ++ n ++ [sepChar]) = none) :
    ∃ fs1 fs2,
      fs.newFile p = Except.ok fs1 ∧
      fs1.write p foobarBytes = ((6 : Int), none, fs2) ∧
      fs2.read p = ((6 : Int), none, foobarBytes) := by
  have hnosuf := hasSepSuffix_of_no_sep n h2
  have hval := validateName_no_sep n h2 h3 h4
  have hsplit := goSplit_no_sep n h2
  rcases hd with ⟨habs, hp, hK⟩ | ⟨habs, hp, hK⟩
  · subst hp; subst hK
    have h5' : lookupKey fs.trie (sepChar :: n) = none := by simpa using h5
    have h6' : lookupKey fs.trie (sepChar :: (n ++ [sepChar])) = none := by simpa using h6
    refine ⟨{ fs with trie := (sepChar :: n, NodeData.file []) :: fs.trie },
            { fs with trie := (sepChar :: n, NodeData.file foobarBytes)
                :: updateKey fs.trie (sepChar :: n) (NodeData.file foobarBytes) },
            ?_, ?_, ?_⟩
    · simp [FS.newFile, FS.newFileAtNode, isAbs, hnosuf, hval, hsplit, h1, h5', h6']
    · simp [FS.write, FS.findNode, FS.resolve, isAbs, lookupKey, updateKey, foobarBytes]
    · simp [FS.read, FS.findNode, FS.resolve, isAbs, lookupKey, foobarBytes]
  · subst hp; subst hK
    have h6' : lookupKey fs.trie (fs.currentDir ++ (p ++ [sepChar])) = none := by
      simpa using h6
    refine ⟨{ fs with trie := (fs.currentDir ++ p, NodeData.file []) :: fs.trie },
            { fs with trie := (fs.currentDir ++ p, NodeData.file foobarBytes)
                :: updateKey fs.trie (fs.currentDir ++ p) (NodeData.file foobarBytes) },
            ?_, ?_, ?_⟩
    · simp [FS.newFile, FS.newFileAtNode, habs, hnosuf, hval, hsplit, h1, h5, h6']
    · simp [FS.write, FS.findNode, FS.resolve, habs, lookupKey, updateKey, foobarBytes]
    · simp [FS.read, FS.findNode, FS.resolve, habs, lookupKey, foobarBytes]

/-- Witness for C4: the round trip on the fresh absolute path "/f" of the
initial filesystem. -/
theorem create_write_read_round_trip_witness :
    ∃ fs1 fs2,
      FS.init.newFile ['/', 'f'] = Except.ok fs1 ∧
      fs1.write ['/', 'f'] foobarBytes = ((6 : Int), none, fs2) ∧
      fs2.read ['/', 'f'] = ((6 : Int), none, foobarBytes) :=
  create_write_read_round_trip FS.init ['/', 'f'] ['f'] [sepChar]
    (Or.inl ⟨by decide, rfl, rfl⟩) (by decide) (by decide) (by decide) (by decide)
    (by decide) (by decide)

/-- C3 (sequential semantics of Remove on a directory, locks abstracted
away; see the deadlock note in the development header and the claim
record): for a directory d that is neither the root nor the current
directory, Remove(d) fails with DirectoryNotEmpty exactly when d has at
least one child, and with zero children it succeeds, d's key disappears,
and a subsequent ListDir of d's parent lists no directory entry named
d. -/
theorem remove_dir_semantics (fs : FS) (d par : Str)
    (h1 : isAbs d = true) (h2 : hasSepSuffix d = true)
    (h3 : lookupKey fs.trie d = some NodeData.dir)
    (h4 : d ≠ [sepChar]) (h5 : d ≠ fs.currentDir)
    (h6 : isAbs par = true) (h7 : hasSepSuffix par = true)
    (h8 : lookupKey fs.trie par = some NodeData.dir) (h9 : par ≠ d) :
    (childPairs fs.trie d ≠ [] → fs.removeOp d = Except.error Err.dirNotEmpty) ∧
    (childPairs fs.trie d = [] →
      fs.removeOp d = Except.ok { fs with trie := removeKey fs.trie d } ∧
      lookupKey (removeKey fs.trie d) d = none ∧
      FS.listDir { fs with trie := removeKey fs.trie d } par =
        Except.ok (filesOf (childPairs (removeKey fs.trie d) par),
                   dirsOf (childPairs (removeKey fs.trie d) par)) ∧
      ∀ x ∈ dirsOf (childPairs (removeKey fs.trie d) par), x.1 ≠ d) := by
  have hnorm : fs.normalizePath d = d := by simp [FS.normalizePath, h1]
  have hres : fs.resolve d = d := by simp [FS.resolve, h1]
  have hfind : fs.findNode d = some (d, NodeData.dir) := by
    simp [FS.findNode, hres, h3]
  have hrf : fs.removeFind d = some (d, (d, NodeData.dir)) := by
    simp [FS.removeFind, hfind]
  have hndp : normalizeDirPath d = d := by simp [normalizeDirPath, h2]
  have hlist : fs.listDir d =
      Except.ok (filesOf (childPairs fs.trie d), dirsOf (childPairs fs.trie d)) := by
    simp [FS.listDir, hndp, hfind]
  have hcond : ¬ (d = [sepChar] ∨ d = fs.currentDir) := by
    rintro (hc | hc)
    · exact h4 hc
    · exact h5 hc
  constructor
  · intro hkids
    have hor := filesOf_dirsOf_not_both_nil _ hkids
    simp only [FS.removeOp, hnorm, hrf]
    rw [if_neg hcond]
    simp only [hlist]
    rw [if_pos hor]
  · intro hkids
    have hfls : filesOf (childPairs fs.trie d) = [] := by rw [hkids]; rfl
    have hdrs : dirsOf (childPairs fs.trie d) = [] := by rw [hkids]; rfl
    have hok : fs.removeOp d = Except.ok { fs with trie := removeKey fs.trie d } := by
      simp only [FS.removeOp, hnorm, hrf]
      rw [if_neg hcond]
      simp only [hlist, hfls, hdrs]
      simp
    refine ⟨hok, lookupKey_removeKey_self _ _, ?_, ?_⟩
    · have hlook2 : lookupKey (removeKey fs.trie d) par = some NodeData.dir := by
        rw [lookupKey_removeKey_ne fs.trie d par h9]; exact h8
      have hres2 : FS.resolve { fs with trie := removeKey fs.trie d } par = par := by
        simp [FS.resolve, h6]
      have hndp2 : normalizeDirPath par = par := by simp [normalizeDirPath, h7]
      simp [FS.listDir, hndp2, FS.findNode, hres2, hlook2]
    · intro x hx
      exact fst_ne_of_mem_removeKey fs.trie d x
        (mem_of_mem_childPairs _ _ _ (mem_of_mem_dirsOf _ _ hx))

/-- Witness for C3's theorem: removing the empty directory "/bar/"
(current directory "/") succeeds and deletes exactly its key. -/
theorem remove_dir_semantics_witness :
    ({ trie := [(['/', 'b', 'a', 'r', '/'], NodeData.dir), ([sepChar], NodeData.dir)],
       currentDir := [sepChar] } : FS).removeOp ['/', 'b', 'a', 'r', '/'] =
      Except.ok
        { trie := removeKey [(['/', 'b', 'a', 'r', '/'], NodeData.dir),
                             ([sepChar], NodeData.dir)] ['/', 'b', 'a', 'r', '/'],
          currentDir := [sepChar] } :=
  ((remove_dir_semantics
      ({ trie := [(['/', 'b', 'a', 'r', '/'], NodeData.dir), ([sepChar], NodeData.dir)],
         currentDir := [sepChar] } : FS) ['/', 'b', 'a', 'r', '/'] [sepChar]
      (by decide) (by decide) (by decide) (by decide) (by decide) (by decide)
      (by decide) (by decide) (by decide)).2 (by decide)).1

theorem validatePath_cons (a b c : Char) (rest : Str) :
    validatePath a b (sepChar :: c :: rest) = !(decide (c < a) || decide (b ≤ c)) := by
  simp [validatePath, isAbs]

theorem validatePath_root (a b : Char) : validatePath a b [sepChar] = true := rfl

theorem handlePath_reject (sv : Server) (op : PathRpc) (p : Str)
    (h : validatePath sv.start sv.stop p = false) :
    sv.handlePath op p = (Except.error RpcErr.invalidArgument, sv) := by
  cases op <;>
    simp [Server.handlePath, Server.listDirH, Server.makeDirH, Server.removeH,
      Server.createFileH, Server.readFileH, h]

theorem handlePath_forward (sv : Server) (op : PathRpc) (p : Str)
    (h : validatePath sv.start sv.stop p = true) :
    sv.handlePath op p = sv.engineForward op p := by
  cases op <;>
    simp [Server.handlePath, Server.listDirH, Server.makeDirH, Server.removeH,
      Server.createFileH, Server.readFileH, Server.engineForward, h]

theorem engineForward_not_invalid (sv : Server) (op : PathRpc) (p : Str) :
    (sv.engineForward op p).1 ≠ Except.error RpcErr.invalidArgument := by
  cases op <;> simp only [Server.engineForward] <;> split <;> simp

/-- C7 counterexample: the WriteFile handler never calls validatePath.
On a server with range [a, n), a WriteFile stream whose first message
names the out-of-range path "/z" is NOT rejected with invalid-argument:
the namespace engine is invoked and its NotFound error is passed
through. -/
theorem write_file_skips_range_check_counterexample :
    (Server.writeFileH { start := 'a', stop := 'n', fs := FS.init }
      [FilePayload.path ['/', 'z']]).1 = Except.error (RpcErr.engine Err.notFound) ∧
    (Except.error (RpcErr.engine Err.notFound) : Except RpcErr RpcOut) ≠
      Except.error RpcErr.invalidArgument := by decide

/-- C7 amended: for the five Path-carrying RPCs (ListDir, MakeDir, Remove,
CreateFile, ReadFile) and a path with at least one character after the
leading separator, the server answers invalid-argument with the engine
untouched exactly when the first character after the separator lies
outside [start, stop); in-range paths and the root path are forwarded 1:1
to the engine.  (WriteFile performs no such check; see the
counterexample.) -/
theorem path_rpc_range_gate (sv : Server) (op : PathRpc) (p : Str) (c : Char) (rest : Str)
    (hp : p = sepChar :: c :: rest) :
    ((c < sv.start ∨ sv.stop ≤ c) →
      sv.handlePath op p = (Except.error RpcErr.invalidArgument, sv)) ∧
    (¬ (c < sv.start ∨ sv.stop ≤ c) → sv.handlePath op p = sv.engineForward op p) ∧
    ((sv.handlePath op p).1 = Except.error RpcErr.invalidArgument ↔
      (c < sv.start ∨ sv.stop ≤ c)) ∧
    sv.handlePath op [sepChar] = sv.engineForward op [sepChar] := by
  subst hp
  have hv := validatePath_cons sv.start sv.stop c rest
  have hroot := handlePath_forward sv op [sepChar] (validatePath_root sv.start sv.stop)
  by_cases hc : c < sv.start ∨ sv.stop ≤ c
  · have hfalse : validatePath sv.start sv.stop (sepChar :: c :: rest) = false := by
      rw [hv]; rcases hc with h | h <;> simp [h]
    have hrej := handlePath_reject sv op _ hfalse
    refine ⟨fun _ => hrej, fun hn => absurd hc hn, ?_, hroot⟩
    rw [hrej]
    simp [hc]
  · have hc1 : ¬ (c < sv.start) := fun h => hc (Or.inl h)
    have hc2 : ¬ (sv.stop ≤ c) := fun h => hc (Or.inr h)
    have htrue : validatePath sv.start sv.stop (sepChar :: c :: rest) = true := by
      rw [hv]; simp [hc1, hc2]
    have hfwd := handlePath_forward sv op _ htrue
    refine ⟨fun hcon => absurd hcon hc, fun _ => hfwd, ?_, hroot⟩
    constructor
    · intro habs
      rw [hfwd] at habs
      exact absurd habs (engineForward_not_invalid sv op _)
    · intro habs
      exact absurd habs hc

/-- Witness for the amended C7: the out-of-range path "/z" on a [a, n)
server is rejected by ListDir with invalid-argument and the server state
is unchanged. -/
theorem path_rpc_range_gate_witness :
    Server.handlePath { start := 'a', stop := 'n', fs := FS.init } PathRpc.listdir
      ['/', 'z'] =
      (Except.error RpcErr.invalidArgument, { start := 'a', stop := 'n', fs := FS.init }) :=
  (path_rpc_range_gate { start := 'a', stop := 'n', fs := FS.init } PathRpc.listdir
    ['/', 'z'] 'z' [] rfl).1 (by decide)

/-- C8 counterexample: with an EMPTY shard table the per-iteration
absoluteness check never runs, so the non-absolute path "x" is NOT
rejected: the lookup succeeds with zero shards instead of failing. -/
theorem clients_for_path_relative_counterexample :
    clientsForPath [] ['x'] = some [] ∧
    (some ([] : List Str) : Option (List Str)) ≠ none := by decide

/-- C8 amended: provided the shard table is non-empty, a non-absolute
path is rejected; the root path returns every shard in table order; and
any other absolute path returns exactly the shards whose [start, stop)
range contains the path's first character after the separator (the
zero-match result is the empty list, which callers treat as
unroutable). -/
theorem clients_for_path_routing (servers : List ShardEntry) (p : Str) :
    (servers ≠ [] → isAbs p = false → clientsForPath servers p = none) ∧
    clientsForPath servers [sepChar] = some (servers.map ShardEntry.addr) ∧
    (isAbs p = true → p ≠ [sepChar] →
      clientsForPath servers p =
        some ((servers.filter (fun e => inRange e p)).map ShardEntry.addr)) := by
  induction servers with
  | nil => exact ⟨fun h _ => absurd rfl h, rfl, fun _ _ => rfl⟩
  | cons sv rest ih =>
    refine ⟨?_, ?_, ?_⟩
    · intro _ hne
      simp [clientsForPath, hne]
    · have hr := ih.2.1
      simp [clientsForPath, isAbs, hr]
    · intro habs hne
      have hr := ih.2.2 habs hne
      by_cases hir : inRange sv p = true
      · simp [clientsForPath, habs, hr, hir, hne]
      · simp [clientsForPath, habs, hr, hir, hne]

/-- Witness for the amended C8: one-entry table [a, n): the relative path
"x" is rejected; "/" returns the single shard; "/q" (out of range) maps
to zero shards; "/b" (in range) maps to exactly that shard. -/
theorem clients_for_path_routing_witness :
    clientsForPath [{ start := 'a', stop := 'n', addr := ['s'] }] ['x'] = none ∧
    clientsForPath [{ start := 'a', stop := 'n', addr := ['s'] }] [sepChar] =
      some [['s']] ∧
    clientsForPath [{ start := 'a', stop := 'n', addr := ['s'] }] ['/', 'q'] = some [] ∧
    clientsForPath [{ start := 'a', stop := 'n', addr := ['s'] }] ['/', 'b'] =
      some [['s']] := by
  refine ⟨(clients_for_path_routing [{ start := 'a', stop := 'n', addr := ['s'] }]
      ['x']).1 (by decide) (by decide),
    (clients_for_path_routing [{ start := 'a', stop := 'n', addr := ['s'] }] ['x']).2.1,
    ?_, ?_⟩
  · have h := (clients_for_path_routing [{ start := 'a', stop := 'n', addr := ['s'] }]
      ['/', 'q']).2.2 (by decide) (by decide)
    simpa using h
  · have h := (clients_for_path_routing [{ start := 'a', stop := 'n', addr := ['s'] }]
      ['/', 'b']).2.2 (by decide) (by decide)
    simpa using h
